import Mathlib

/-!
Verification of the `hueru` screen-color sampler and RGB→xy conversion.

Conventions of the embedding:
* Python floats are modelled by `ℚ` (exact arithmetic; the spec's algorithm
  statements are "up to floating rounding", and all decimal literals of the
  source are exact decimals, hence exact rationals).
* The transcendental `pow(c, 2.2)` has no rational closed form, so every
  conversion function is parametrised by `gpow : ℚ → ℚ`, the gamma-decoding
  power function; the parametrisation is shared by all variants under
  comparison, so equality statements compare the surrounding algorithm.
* `uint8` channel values are natural numbers (the claims quantify over all
  uint8 triples; theorems here hold for all of `ℕ`, which covers them).
-/

namespace Hueru

/-- Embedding of `colors.rgb_to_xy` (src/hueru/colors.py). `int(x)` does not
occur here; the `if` conditions and constants are the source's literals. -/
def rgb_to_xy (gpow : ℚ → ℚ) (r g b : ℕ) : ℚ × ℚ :=
  let r_norm : ℚ := (r : ℚ) / 255.0
  let g_norm : ℚ := (g : ℚ) / 255.0
  let b_norm : ℚ := (b : ℚ) / 255.0
  let r_final := if r_norm > 0.04045 then gpow r_norm else r_norm / 12.92
  let g_final := if g_norm > 0.04045 then gpow g_norm else g_norm / 12.92
  let b_final := if b_norm > 0.04045 then gpow b_norm else b_norm / 12.92
  let X := r_final * 0.649926 + g_final * 0.103455 + b_final * 0.197109
  let Y := r_final * 0.234327 + g_final * 0.743075 + b_final * 0.022598
  let Z := r_final * 0.000000 + g_final * 0.053077 + b_final * 1.035763
  if X + Y + Z = 0 then (0.0, 0.0)
  else (X / (X + Y + Z), Y / (X + Y + Z))

/-- The conversion algorithm as the spec words it (section 4.1): normalize by
255.0, gamma-decode piecewise, apply the fixed matrix written
coefficient-first (the spec drops the `0.000000*R` term of `Z`), and
normalize by the XYZ sum with the zero-sum guard. -/
def rgb_to_xy_spec (gpow : ℚ → ℚ) (r g b : ℕ) : ℚ × ℚ :=
  let rn : ℚ := (r : ℚ) / 255.0
  let gn : ℚ := (g : ℚ) / 255.0
  let bn : ℚ := (b : ℚ) / 255.0
  let R := if rn > 0.04045 then gpow rn else rn / 12.92
  let G := if gn > 0.04045 then gpow gn else gn / 12.92
  let B := if bn > 0.04045 then gpow bn else bn / 12.92
  let X := 0.649926 * R + 0.103455 * G + 0.197109 * B
  let Y := 0.234327 * R + 0.743075 * G + 0.022598 * B
  let Z := 0.053077 * G + 1.035763 * B
  if X + Y + Z = 0 then (0.0, 0.0)
  else (X / (X + Y + Z), Y / (X + Y + Z))

/-- Embedding of the inline RGB→xy conversion of the CLI `rgb` command
(src/hueru/__main__.py, `rgb.command`): it recomputes the conversion locally
(normalize, gamma branch, matrix, zero-sum guard) and passes `[x, y]` as the
light's color; the pair (x, y) is the modelled result. -/
def rgbCommandXY (gpow : ℚ → ℚ) (r g b : ℕ) : ℚ × ℚ :=
  let r_norm : ℚ := (r : ℚ) / 255.0
  let g_norm : ℚ := (g : ℚ) / 255.0
  let b_norm : ℚ := (b : ℚ) / 255.0
  let r_final := if r_norm > 0.04045 then gpow r_norm else r_norm / 12.92
  let g_final := if g_norm > 0.04045 then gpow g_norm else g_norm / 12.92
  let b_final := if b_norm > 0.04045 then gpow b_norm else b_norm / 12.92
  let X := r_final * 0.649926 + g_final * 0.103455 + b_final * 0.197109
  let Y := r_final * 0.234327 + g_final * 0.743075 + b_final * 0.022598
  let Z := r_final * 0.000000 + g_final * 0.053077 + b_final * 1.035763
  if X + Y + Z = 0 then (0.0, 0.0)
  else (X / (X + Y + Z), Y / (X + Y + Z))

/-- Embedding of the inline RGB→xy conversion of the `screen bottom` loop
(src/hueru/__main__.py, `bottom.command`): per iteration it converts the
sampled (r, g, b) with the same inline formula and sends `[x, y]`. -/
def screenBottomXY (gpow : ℚ → ℚ) (r g b : ℕ) : ℚ × ℚ :=
  let r_norm : ℚ := (r : ℚ) / 255.0
  let g_norm : ℚ := (g : ℚ) / 255.0
  let b_norm : ℚ := (b : ℚ) / 255.0
  let r_final := if r_norm > 0.04045 then gpow r_norm else r_norm / 12.92
  let g_final := if g_norm > 0.04045 then gpow g_norm else g_norm / 12.92
  let b_final := if b_norm > 0.04045 then gpow b_norm else b_norm / 12.92
  let X := r_final * 0.649926 + g_final * 0.103455 + b_final * 0.197109
  let Y := r_final * 0.234327 + g_final * 0.743075 + b_final * 0.022598
  let Z := r_final * 0.000000 + g_final * 0.053077 + b_final * 1.035763
  if X + Y + Z = 0 then (0.0, 0.0)
  else (X / (X + Y + Z), Y / (X + Y + Z))

/-- A decoded RGB frame as held in `ScreenScanner.latest_frame`: a
`height × width` grid of uint8 triples (the numpy array of shape
`(height, width, 3)`); `pix i j` is the pixel at row `i`, column `j`. -/
structure Frame where
  height : ℕ
  width : ℕ
  pix : ℕ → ℕ → ℕ × ℕ × ℕ

/-- Sum of `g` over the `n` consecutive indices starting at `a`
(the elementwise sum numpy takes over one axis of a slice). -/
def sumRange (g : ℕ → ℕ) (a n : ℕ) : ℕ :=
  match n with
  | 0 => 0
  | m + 1 => g a + sumRange g (a + 1) m

/-- Embedding of `ScreenScanner.get_region_color` (src/hueru/screen.py).
`int(frac * dim)` truncates toward zero, which is `Int.floor ∘ Int.toNat` for
the nonnegative fractions the claims quantify over; numpy slicing
`frame[y1:y2, x1:x2]` clamps the stop index to the axis length (a start index
beyond the length yields an empty slice, which the `Nat` subtraction in the
guard reproduces); `region.size == 0` vanishes iff `rows * cols = 0` (the
size is `rows * cols * 3`); `np.mean(region, axis=(0, 1))` is the exact
channel sum divided by the pixel count, and `.astype(int)` truncates the
nonnegative mean, i.e. takes its floor. -/
def get_region_color (latest_frame : Option Frame) (left top right bottom : ℚ) :
    ℕ × ℕ × ℕ :=
  match latest_frame with
  | none => (0, 0, 0)
  | some f =>
      let y1 := (⌊top * (f.height : ℚ)⌋).toNat
      let y2 := min (⌊bottom * (f.height : ℚ)⌋).toNat f.height
      let x1 := (⌊left * (f.width : ℚ)⌋).toNat
      let x2 := min (⌊right * (f.width : ℚ)⌋).toNat f.width
      if (y2 - y1) * (x2 - x1) = 0 then (0, 0, 0)
      else
        let sR := sumRange (fun i => sumRange (fun j => (f.pix i j).1) x1 (x2 - x1)) y1 (y2 - y1)
        let sG := sumRange (fun i => sumRange (fun j => (f.pix i j).2.1) x1 (x2 - x1)) y1 (y2 - y1)
        let sB := sumRange (fun i => sumRange (fun j => (f.pix i j).2.2) x1 (x2 - x1)) y1 (y2 - y1)
        ((⌊(sR : ℚ) / (((y2 - y1) * (x2 - x1) : ℕ) : ℚ)⌋).toNat,
         (⌊(sG : ℚ) / (((y2 - y1) * (x2 - x1) : ℕ) : ℚ)⌋).toNat,
         (⌊(sB : ℚ) / (((y2 - y1) * (x2 - x1) : ℕ) : ℚ)⌋).toNat)

/-- The number of pixels of the sliced region, exactly as the guard of
`get_region_color` computes it (`region.size` divided by the 3 channels). -/
def regionCount (f : Frame) (left top right bottom : ℚ) : ℕ :=
  (min (⌊bottom * (f.height : ℚ)⌋).toNat f.height - (⌊top * (f.height : ℚ)⌋).toNat) *
    (min (⌊right * (f.width : ℚ)⌋).toNat f.width - (⌊left * (f.width : ℚ)⌋).toNat)

/-- Region averaging as the spec words it (section 4.2): floor the fractional
bounds times the dimension, clamp each index to `[0, dim]`, slice, take the
arithmetic mean per channel over all pixels of the slice, truncate to
integer, with the empty-slice and no-frame short-circuits to (0, 0, 0). -/
def get_region_color_spec (latest_frame : Option Frame) (left top right bottom : ℚ) :
    ℕ × ℕ × ℕ :=
  match latest_frame with
  | none => (0, 0, 0)
  | some f =>
      let y1 := min (⌊top * (f.height : ℚ)⌋).toNat f.height
      let y2 := min (⌊bottom * (f.height : ℚ)⌋).toNat f.height
      let x1 := min (⌊left * (f.width : ℚ)⌋).toNat f.width
      let x2 := min (⌊right * (f.width : ℚ)⌋).toNat f.width
      let rows := Finset.Ico y1 y2
      let cols := Finset.Ico x1 x2
      if rows.card * cols.card = 0 then (0, 0, 0)
      else
        ((⌊(∑ i ∈ rows, ∑ j ∈ cols, ((f.pix i j).1 : ℚ)) /
            ((rows.card * cols.card : ℕ) : ℚ)⌋).toNat,
         (⌊(∑ i ∈ rows, ∑ j ∈ cols, ((f.pix i j).2.1 : ℚ)) /
            ((rows.card * cols.card : ℕ) : ℚ)⌋).toNat,
         (⌊(∑ i ∈ rows, ∑ j ∈ cols, ((f.pix i j).2.2 : ℚ)) /
            ((rows.card * cols.card : ℕ) : ℚ)⌋).toNat)

/-- The 100×100 frame of `test_get_region_color` (src/tests/test_screen.py):
left half (columns 0–49) RGB(0,0,0), right half (columns 50–99)
RGB(255,255,255). -/
def testFrame : Frame :=
  Frame.mk 100 100 (fun _ j => if j < 50 then (0, 0, 0) else (255, 255, 255))

/-- A frame all of whose pixels have the single color `c`. -/
def constFrame (height width : ℕ) (c : ℕ × ℕ × ℕ) : Frame :=
  Frame.mk height width (fun _ _ => c)

/-- The state of a `ScreenScanner` shared between the GLib background thread
and query callers: the fixed capture dimensions and the `latest_frame` slot
(initially `None`). -/
structure SamplerState where
  height : ℕ
  width : ℕ
  latest_frame : Option Frame

/-- `ScreenScanner.__init__(width, height)` sets the dimensions and
`latest_frame = None` before the pipeline starts delivering samples. -/
def samplerInit (width height : ℕ) : SamplerState :=
  SamplerState.mk height width none

/-- `np.frombuffer(data).reshape((height, width, 3))`: the flat byte buffer
read back as a row-major `height × width` grid of RGB triples. -/
def frameOfBytes (height width : ℕ) (bytes : List ℕ) : Frame :=
  Frame.mk height width (fun i j =>
    (bytes.getD ((i * width + j) * 3) 0,
     bytes.getD ((i * width + j) * 3 + 1) 0,
     bytes.getD ((i * width + j) * 3 + 2) 0))

/-- Embedding of `ScreenScanner._on_new_sample`: the callback extracts the
buffer and replaces `self.latest_frame` with the reshaped array in a single
reference assignment (one atomic step in CPython). `reshape` succeeds exactly
when the buffer holds `height * width * 3` bytes; otherwise it raises inside
the callback and the slot is left unchanged. -/
def on_new_sample (s : SamplerState) (bytes : List ℕ) : SamplerState :=
  if bytes.length = s.height * s.width * 3 then
    SamplerState.mk s.height s.width (some (frameOfBytes s.height s.width bytes))
  else s

/-- Interleaving semantics of the background context: each delivered sample
is one atomic replacement of the `latest_frame` reference (CPython attribute
assignment); a query reads the whole state between steps. -/
inductive SamplerStep : SamplerState → SamplerState → Prop where
  | newSample (s : SamplerState) (bytes : List ℕ) : SamplerStep s (on_new_sample s bytes)

/-- Result of `Gst.Element.set_state` as `__init__` inspects it (the code
only compares against `Gst.StateChangeReturn.FAILURE`). -/
inductive StateChangeReturn where
  | success
  | async
  | noPreroll
  | failure
deriving DecidableEq

/-- A raised Python exception; `__init__` and `close` only ever raise
`RuntimeError` (the code defines no dedicated error class). -/
inductive PyExn where
  | runtimeError (msg : String)
deriving DecidableEq

/-- Which sub-resources of `__init__` have been started, and which teardown
operations have run, at the moment construction returns or raises. -/
structure InitEffects where
  gstInited : Bool
  pipelineCreated : Bool
  loopThreadStarted : Bool
  loopQuitCalled : Bool
  pipelineSetNull : Bool
deriving DecidableEq

/-- Outcome of `ScreenScanner.__init__`: the exception raised (if any) and
the resource effects at that moment. -/
structure InitOutcome where
  raised : Option PyExn
  effects : InitEffects
deriving DecidableEq

/-- Embedding of the fallible tail of `ScreenScanner.__init__`
(src/hueru/screen.py lines 10–46). In source order: `Gst.init`,
`parse_launch`, sink hookup, then the GLib `MainLoop` and its daemon thread
are started, then `set_state(PLAYING)`. If that returns `FAILURE` the
constructor pops an error message from the bus and raises `RuntimeError` —
with no intervening teardown: neither `loop.quit()` nor
`pipeline.set_state(NULL)` is called before the raise. -/
def screenScannerInit (res : StateChangeReturn) (busErr : Option String) : InitOutcome :=
  let started := InitEffects.mk true true true false false
  match res with
  | StateChangeReturn.failure =>
      match busErr with
      | some err =>
          InitOutcome.mk (some (PyExn.runtimeError ("GStreamer Error: " ++ err))) started
      | none =>
          InitOutcome.mk
            (some (PyExn.runtimeError
              "Pipeline failed to play. Check if xdg-desktop-portal is running."))
            started
  | _ => InitOutcome.mk none started

/-- The backend operations `ScreenScanner.close` can issue. -/
inductive GstCall where
  | setStateNull
  | loopQuit
deriving DecidableEq

/-- Embedding of `ScreenScanner.close`: the method keeps no already-closed
flag and mutates no Python-side state (state type `Unit`); every invocation
unconditionally issues `pipeline.set_state(Gst.State.NULL)` then
`loop.quit()`, and its body contains no raise (both backend calls are
documented no-ops on an already-stopped pipeline/loop). The result is the
unchanged state and the trace of backend calls made. -/
def screenScannerClose (u : Unit) : Unit × List GstCall :=
  (u, [GstCall.setStateNull, GstCall.loopQuit])

end Hueru

namespace Hueru

theorem norm_branch_congr (X Y Z X' Y' Z' : ℚ) (e : ℚ × ℚ)
    (hX : X = X') (hY : Y = Y') (hZ : Z = Z') :
    (if X + Y + Z = 0 then e else (X / (X + Y + Z), Y / (X + Y + Z)))
      = (if X' + Y' + Z' = 0 then e else (X' / (X' + Y' + Z'), Y' / (X' + Y' + Z'))) := by
  subst hX; subst hY; subst hZ; rfl

theorem conv_core_eq (A B C : ℚ) :
    (if A * 0.649926 + B * 0.103455 + C * 0.197109 +
          (A * 0.234327 + B * 0.743075 + C * 0.022598) +
          (A * 0.000000 + B * 0.053077 + C * 1.035763) = 0 then ((0.0 : ℚ), (0.0 : ℚ))
      else ((A * 0.649926 + B * 0.103455 + C * 0.197109) /
              (A * 0.649926 + B * 0.103455 + C * 0.197109 +
                (A * 0.234327 + B * 0.743075 + C * 0.022598) +
                (A * 0.000000 + B * 0.053077 + C * 1.035763)),
            (A * 0.234327 + B * 0.743075 + C * 0.022598) /
              (A * 0.649926 + B * 0.103455 + C * 0.197109 +
                (A * 0.234327 + B * 0.743075 + C * 0.022598) +
                (A * 0.000000 + B * 0.053077 + C * 1.035763))))
      = (if 0.649926 * A + 0.103455 * B + 0.197109 * C +
            (0.234327 * A + 0.743075 * B + 0.022598 * C) +
            (0.053077 * B + 1.035763 * C) = 0 then ((0.0 : ℚ), (0.0 : ℚ))
        else ((0.649926 * A + 0.103455 * B + 0.197109 * C) /
                (0.649926 * A + 0.103455 * B + 0.197109 * C +
                  (0.234327 * A + 0.743075 * B + 0.022598 * C) +
                  (0.053077 * B + 1.035763 * C)),
              (0.234327 * A + 0.743075 * B + 0.022598 * C) /
                (0.649926 * A + 0.103455 * B + 0.197109 * C +
                  (0.234327 * A + 0.743075 * B + 0.022598 * C) +
                  (0.053077 * B + 1.035763 * C)))) :=
  norm_branch_congr _ _ _ _ _ _ _ (by ring) (by ring) (by ring)

/-- C1: `rgb_to_xy` computes exactly the algorithm the spec states: per-channel
normalization by 255.0, the piecewise gamma branch at 0.04045, the fixed XYZ
matrix, and the zero-sum guard returning (0.0, 0.0); in particular the input
(0,0,0) yields (0.0, 0.0). -/
theorem rgb_to_xy_matches_spec :
    (∀ (gpow : ℚ → ℚ) (r g b : ℕ),
        rgb_to_xy gpow r g b = rgb_to_xy_spec gpow r g b) ∧
    (∀ gpow : ℚ → ℚ, rgb_to_xy gpow 0 0 0 = (0.0, 0.0)) := by
  constructor
  · intro gpow r g b
    simp only [rgb_to_xy, rgb_to_xy_spec]
    exact conv_core_eq _ _ _
  · intro gpow
    simp only [rgb_to_xy]
    norm_num

end Hueru

namespace Hueru

/-- C9: the inline RGB→xy conversion duplicated in both the CLI `rgb` command
and the `screen bottom` loop computes exactly the same pair as
`colors.rgb_to_xy` on every input (same normalization, gamma branch, matrix
and zero-sum guard). -/
theorem inline_conversions_eq_rgb_to_xy :
    ∀ (gpow : ℚ → ℚ) (r g b : ℕ),
      rgbCommandXY gpow r g b = rgb_to_xy gpow r g b ∧
        screenBottomXY gpow r g b = rgb_to_xy gpow r g b :=
  fun _ _ _ _ => ⟨rfl, rfl⟩

/-- C7: both chromaticity components returned by `rgb_to_xy` lie in [0, 1]
and their sum is at most 1 (so z = 1 − x − y is also in [0, 1]), provided the
gamma power function maps nonnegative inputs to nonnegative outputs (true of
the real function `c ↦ c ** 2.2`). -/
theorem rgb_to_xy_mem_unit_interval (gpow : ℚ → ℚ)
    (hg : ∀ q : ℚ, 0 ≤ q → 0 ≤ gpow q) (r g b : ℕ) :
    0 ≤ (rgb_to_xy gpow r g b).1 ∧ (rgb_to_xy gpow r g b).1 ≤ 1 ∧
      0 ≤ (rgb_to_xy gpow r g b).2 ∧ (rgb_to_xy gpow r g b).2 ≤ 1 ∧
      (rgb_to_xy gpow r g b).1 + (rgb_to_xy gpow r g b).2 ≤ 1 := by
  have hchan : ∀ c : ℕ,
      0 ≤ (if ((c : ℚ) / 255.0 > 0.04045) then gpow ((c : ℚ) / 255.0)
            else ((c : ℚ) / 255.0) / 12.92) := by
    intro c
    have hc : (0 : ℚ) ≤ (c : ℚ) / 255.0 := by positivity
    split_ifs
    · exact hg _ hc
    · positivity
  simp only [rgb_to_xy]
  have hA := hchan r
  have hB := hchan g
  have hC := hchan b
  generalize (if ((r : ℚ) / 255.0 > 0.04045) then gpow ((r : ℚ) / 255.0)
      else ((r : ℚ) / 255.0) / 12.92) = A at hA ⊢
  generalize (if ((g : ℚ) / 255.0 > 0.04045) then gpow ((g : ℚ) / 255.0)
      else ((g : ℚ) / 255.0) / 12.92) = B at hB ⊢
  generalize (if ((b : ℚ) / 255.0 > 0.04045) then gpow ((b : ℚ) / 255.0)
      else ((b : ℚ) / 255.0) / 12.92) = C at hC ⊢
  have hX : (0 : ℚ) ≤ A * 0.649926 + B * 0.103455 + C * 0.197109 := by positivity
  have hY : (0 : ℚ) ≤ A * 0.234327 + B * 0.743075 + C * 0.022598 := by positivity
  have hZ : (0 : ℚ) ≤ A * 0.000000 + B * 0.053077 + C * 1.035763 := by positivity
  split_ifs with hS
  · norm_num
  · set X := A * 0.649926 + B * 0.103455 + C * 0.197109 with hXdef
    set Y := A * 0.234327 + B * 0.743075 + C * 0.022598 with hYdef
    set Z := A * 0.000000 + B * 0.053077 + C * 1.035763 with hZdef
    have hSpos : 0 < X + Y + Z := lt_of_le_of_ne (by linarith) (Ne.symm hS)
    refine ⟨by positivity, ?_, by positivity, ?_, ?_⟩
    · rw [div_le_one hSpos]; linarith
    · rw [div_le_one hSpos]; linarith
    · rw [div_add_div_same, div_le_one hSpos]; linarith

/-- Witness for C7 at a concrete gamma function and input: the identity
function preserves nonnegativity, and the bounds hold at (10, 200, 30). -/
theorem rgb_to_xy_mem_unit_interval_witness :
    (∀ q : ℚ, 0 ≤ q → 0 ≤ id q) ∧
      (0 ≤ (rgb_to_xy id 10 200 30).1 ∧ (rgb_to_xy id 10 200 30).1 ≤ 1 ∧
        0 ≤ (rgb_to_xy id 10 200 30).2 ∧ (rgb_to_xy id 10 200 30).2 ≤ 1 ∧
        (rgb_to_xy id 10 200 30).1 + (rgb_to_xy id 10 200 30).2 ≤ 1) :=
  ⟨fun _ h => h, rgb_to_xy_mem_unit_interval id (fun _ h => h) 10 200 30⟩

end Hueru

namespace Hueru

theorem sumRange_eq_sum_Ico (g : ℕ → ℕ) (a n : ℕ) :
    sumRange g a n = ∑ i ∈ Finset.Ico a (a + n), g i := by
  induction n generalizing a with
  | zero => simp [sumRange]
  | succ m ih =>
      rw [show a + (m + 1) = a + 1 + m by omega,
        Finset.sum_eq_sum_Ico_succ_bot (by omega : a < a + 1 + m) g, ← ih (a + 1)]
      rfl

theorem region_sum_cast (g : ℕ → ℕ → ℕ) (y1 y2 x1 x2 : ℕ)
    (hy : y1 ≤ y2) (hx : x1 ≤ x2) :
    ((sumRange (fun i => sumRange (fun j => g i j) x1 (x2 - x1)) y1 (y2 - y1) : ℕ) : ℚ)
      = ∑ i ∈ Finset.Ico y1 y2, ∑ j ∈ Finset.Ico x1 x2, ((g i j : ℕ) : ℚ) := by
  rw [sumRange_eq_sum_Ico, Nat.add_sub_cancel' hy]
  push_cast
  refine Finset.sum_congr rfl fun i _ => ?_
  rw [sumRange_eq_sum_Ico, Nat.add_sub_cancel' hx]
  push_cast
  rfl

theorem sumRange_const (c a n : ℕ) : sumRange (fun _ => c) a n = n * c := by
  induction n generalizing a with
  | zero => simp [sumRange]
  | succ m ih => rw [sumRange, ih (a + 1)]; ring

end Hueru

namespace Hueru

section RegionColorClaims

attribute [local semireducible] Rat.add Rat.mul Rat.sub Rat.inv Rat.ofScientific

set_option maxRecDepth 10000

/-- C2: `get_region_color` floors the fractional bounds times the dimension,
clamps to the axis ranges, averages per channel over the slice and truncates
the mean; it agrees with the spec's description of that procedure on all
bounds in [0,1], and on the half-black/half-white 100×100 test frame the
three regions of the test yield (0,0,0), (255,255,255) and (127,127,127). -/
theorem get_region_color_matches_spec :
    (∀ (lf : Option Frame) (left top right bottom : ℚ),
        0 ≤ left → left ≤ 1 → 0 ≤ top → top ≤ 1 →
        0 ≤ right → right ≤ 1 → 0 ≤ bottom → bottom ≤ 1 →
        get_region_color lf left top right bottom
          = get_region_color_spec lf left top right bottom) ∧
      get_region_color (some testFrame) 0 0 (1/2) 1 = (0, 0, 0) ∧
      get_region_color (some testFrame) (1/2) 0 1 1 = (255, 255, 255) ∧
      get_region_color (some testFrame) (1/4) 0 (3/4) 1 = (127, 127, 127) := by
  refine ⟨?_, by decide, by decide, by decide⟩
  intro lf l t r b hl0 hl1 ht0 ht1 hr0 hr1 hb0 hb1
  cases lf with
  | none => rfl
  | some f =>
      simp only [get_region_color, get_region_color_spec]
      have hy1 : min (⌊t * (f.height : ℚ)⌋).toNat f.height
          = (⌊t * (f.height : ℚ)⌋).toNat := by
        apply min_eq_left
        rw [Int.toNat_le]
        calc ⌊t * (f.height : ℚ)⌋ ≤ ⌊((f.height : ℕ) : ℚ)⌋ := by
              apply Int.floor_le_floor
              calc t * (f.height : ℚ) ≤ 1 * (f.height : ℚ) :=
                    mul_le_mul_of_nonneg_right ht1 (by positivity)
                _ = (f.height : ℚ) := one_mul _
          _ = (f.height : ℤ) := Int.floor_natCast _
      have hx1 : min (⌊l * (f.width : ℚ)⌋).toNat f.width
          = (⌊l * (f.width : ℚ)⌋).toNat := by
        apply min_eq_left
        rw [Int.toNat_le]
        calc ⌊l * (f.width : ℚ)⌋ ≤ ⌊((f.width : ℕ) : ℚ)⌋ := by
              apply Int.floor_le_floor
              calc l * (f.width : ℚ) ≤ 1 * (f.width : ℚ) :=
                    mul_le_mul_of_nonneg_right hl1 (by positivity)
                _ = (f.width : ℚ) := one_mul _
          _ = (f.width : ℤ) := Int.floor_natCast _
      rw [hy1, hx1]
      simp only [Nat.card_Ico]
      set Y1 := (⌊t * (f.height : ℚ)⌋).toNat with hY1
      set Y2 := min (⌊b * (f.height : ℚ)⌋).toNat f.height with hY2
      set X1 := (⌊l * (f.width : ℚ)⌋).toNat with hX1
      set X2 := min (⌊r * (f.width : ℚ)⌋).toNat f.width with hX2
      split_ifs with hc
      · rfl
      · obtain ⟨h1, h2⟩ := Nat.mul_ne_zero_iff.mp hc
        have hy12 : Y1 ≤ Y2 := by omega
        have hx12 : X1 ≤ X2 := by omega
        have e1 : ((sumRange (fun i => sumRange (fun j => (f.pix i j).1) X1 (X2 - X1))
              Y1 (Y2 - Y1) : ℕ) : ℚ)
            = ∑ i ∈ Finset.Ico Y1 Y2, ∑ j ∈ Finset.Ico X1 X2, ((f.pix i j).1 : ℚ) :=
          region_sum_cast _ _ _ _ _ hy12 hx12
        have e2 : ((sumRange (fun i => sumRange (fun j => (f.pix i j).2.1) X1 (X2 - X1))
              Y1 (Y2 - Y1) : ℕ) : ℚ)
            = ∑ i ∈ Finset.Ico Y1 Y2, ∑ j ∈ Finset.Ico X1 X2, ((f.pix i j).2.1 : ℚ) :=
          region_sum_cast _ _ _ _ _ hy12 hx12
        have e3 : ((sumRange (fun i => sumRange (fun j => (f.pix i j).2.2) X1 (X2 - X1))
              Y1 (Y2 - Y1) : ℕ) : ℚ)
            = ∑ i ∈ Finset.Ico Y1 Y2, ∑ j ∈ Finset.Ico X1 X2, ((f.pix i j).2.2 : ℚ) :=
          region_sum_cast _ _ _ _ _ hy12 hx12
        rw [e1, e2, e3]

/-- Witness for C2's quantified part at a concrete frame and bounds. -/
theorem get_region_color_matches_spec_witness :
    get_region_color (some testFrame) (1/4) 0 (3/4) 1
      = get_region_color_spec (some testFrame) (1/4) 0 (3/4) 1 :=
  get_region_color_matches_spec.1 (some testFrame) (1/4) 0 (3/4) 1
    (by norm_num) (by norm_num) (by norm_num) (by norm_num)
    (by norm_num) (by norm_num) (by norm_num) (by norm_num)

end RegionColorClaims

end Hueru

namespace Hueru

section RegionEdgeClaims

attribute [local semireducible] Rat.add Rat.mul Rat.sub Rat.inv Rat.ofScientific

set_option maxRecDepth 4000

/-- C5: on a sampler holding a frame, a region with `left ≥ right` or
`top ≥ bottom` (bounds in [0,1]) yields (0,0,0): the slice is empty, the
guard short-circuits before any division. -/
theorem degenerate_region_returns_zero (f : Frame) (left top right bottom : ℚ)
    (hl0 : 0 ≤ left) (hl1 : left ≤ 1) (ht0 : 0 ≤ top) (ht1 : top ≤ 1)
    (hr0 : 0 ≤ right) (hr1 : right ≤ 1) (hb0 : 0 ≤ bottom) (hb1 : bottom ≤ 1)
    (hdeg : right ≤ left ∨ bottom ≤ top) :
    get_region_color (some f) left top right bottom = (0, 0, 0) := by
  simp only [get_region_color]
  have hguard : (min (⌊bottom * (f.height : ℚ)⌋).toNat f.height
        - (⌊top * (f.height : ℚ)⌋).toNat) *
      (min (⌊right * (f.width : ℚ)⌋).toNat f.width
        - (⌊left * (f.width : ℚ)⌋).toNat) = 0 := by
    rcases hdeg with h | h
    · apply Nat.mul_eq_zero.mpr
      right
      have h1 : ⌊right * (f.width : ℚ)⌋ ≤ ⌊left * (f.width : ℚ)⌋ :=
        Int.floor_le_floor (mul_le_mul_of_nonneg_right h (by positivity))
      have h2 : (⌊right * (f.width : ℚ)⌋).toNat ≤ (⌊left * (f.width : ℚ)⌋).toNat :=
        Int.toNat_le_toNat h1
      have h3 : min (⌊right * (f.width : ℚ)⌋).toNat f.width
          ≤ (⌊right * (f.width : ℚ)⌋).toNat := min_le_left _ _
      omega
    · apply Nat.mul_eq_zero.mpr
      left
      have h1 : ⌊bottom * (f.height : ℚ)⌋ ≤ ⌊top * (f.height : ℚ)⌋ :=
        Int.floor_le_floor (mul_le_mul_of_nonneg_right h (by positivity))
      have h2 : (⌊bottom * (f.height : ℚ)⌋).toNat ≤ (⌊top * (f.height : ℚ)⌋).toNat :=
        Int.toNat_le_toNat h1
      have h3 : min (⌊bottom * (f.height : ℚ)⌋).toNat f.height
          ≤ (⌊bottom * (f.height : ℚ)⌋).toNat := min_le_left _ _
      omega
  rw [if_pos hguard]

/-- Witness for C5 at an inverted region on the test frame. -/
theorem degenerate_region_returns_zero_witness :
    get_region_color (some testFrame) (1/2) 0 (1/4) 1 = (0, 0, 0) :=
  degenerate_region_returns_zero testFrame (1/2) 0 (1/4) 1
    (by norm_num) (by norm_num) (by norm_num) (by norm_num)
    (by norm_num) (by norm_num) (by norm_num) (by norm_num)
    (Or.inl (by norm_num))

/-- C6: on a sampler on which no frame has been captured yet
(`latest_frame is None`), `get_region_color` returns (0,0,0) for all region
bounds. -/
theorem no_frame_returns_zero :
    ∀ left top right bottom : ℚ,
      get_region_color none left top right bottom = (0, 0, 0) :=
  fun _ _ _ _ => rfl

/-- C10: on a frame all of whose pixels hold the single color (rc, gc, bc),
any region whose computed pixel rectangle is non-empty averages back to
exactly (rc, gc, bc): the truncated mean of a constant is the constant. -/
theorem const_frame_region_color (f : Frame) (rc gc bc : ℕ)
    (hconst : ∀ i j, f.pix i j = (rc, gc, bc))
    (left top right bottom : ℚ)
    (hne : regionCount f left top right bottom ≠ 0) :
    get_region_color (some f) left top right bottom = (rc, gc, bc) := by
  have hcr : ∀ i j, (f.pix i j).1 = rc := fun i j => by rw [hconst]
  have hcg : ∀ i j, (f.pix i j).2.1 = gc := fun i j => by rw [hconst]
  have hcb : ∀ i j, (f.pix i j).2.2 = bc := fun i j => by rw [hconst]
  simp only [regionCount] at hne
  simp only [get_region_color]
  set Y1 := (⌊top * (f.height : ℚ)⌋).toNat with hY1
  set Y2 := min (⌊bottom * (f.height : ℚ)⌋).toNat f.height with hY2
  set X1 := (⌊left * (f.width : ℚ)⌋).toNat with hX1
  set X2 := min (⌊right * (f.width : ℚ)⌋).toNat f.width with hX2
  rw [if_neg hne]
  simp only [hcr, hcg, hcb, sumRange_const]
  obtain ⟨h1, h2⟩ := Nat.mul_ne_zero_iff.mp hne
  have key : ∀ c : ℕ,
      (⌊(((Y2 - Y1) * ((X2 - X1) * c) : ℕ) : ℚ)
          / (((Y2 - Y1) * (X2 - X1) : ℕ) : ℚ)⌋).toNat = c := by
    intro c
    have hA : (((Y2 - Y1) : ℕ) : ℚ) ≠ 0 := Nat.cast_ne_zero.mpr h1
    have hB : (((X2 - X1) : ℕ) : ℚ) ≠ 0 := Nat.cast_ne_zero.mpr h2
    have hq : (((Y2 - Y1) * ((X2 - X1) * c) : ℕ) : ℚ)
        / (((Y2 - Y1) * (X2 - X1) : ℕ) : ℚ) = (c : ℚ) := by
      push_cast
      field_simp
      ring
    rw [hq, Int.floor_natCast, Int.toNat_natCast]
  rw [key rc, key gc, key bc]

/-- Witness for C10 on a small constant frame and the full region. -/
theorem const_frame_region_color_witness :
    ((∀ i j, (constFrame 2 3 (5, 9, 200)).pix i j = (5, 9, 200)) ∧
        regionCount (constFrame 2 3 (5, 9, 200)) 0 0 1 1 ≠ 0) ∧
      get_region_color (some (constFrame 2 3 (5, 9, 200))) 0 0 1 1 = (5, 9, 200) :=
  ⟨⟨fun _ _ => rfl, by decide⟩,
    const_frame_region_color (constFrame 2 3 (5, 9, 200)) 5 9 200
      (fun _ _ => rfl) 0 0 1 1 (by decide)⟩

end RegionEdgeClaims

end Hueru

namespace Hueru

/-- C3 counterexample: on a concrete failing start (`set_state` returns
FAILURE, no error message on the bus) the constructor does raise — but the
GLib main loop thread started earlier is still running, `loop.quit()` was
never called and the pipeline was not reset to NULL at the moment of the
raise, contradicting the claimed teardown of already-started sub-resources. -/
theorem init_failure_no_teardown_counterexample :
    (screenScannerInit StateChangeReturn.failure none).raised
        = some (PyExn.runtimeError
            "Pipeline failed to play. Check if xdg-desktop-portal is running.") ∧
      (screenScannerInit StateChangeReturn.failure none).effects.loopThreadStarted = true ∧
      (screenScannerInit StateChangeReturn.failure none).effects.loopQuitCalled = false ∧
      (screenScannerInit StateChangeReturn.failure none).effects.pipelineSetNull = false :=
  ⟨rfl, rfl, rfl, rfl⟩

/-- C3 amended: if the capture backend cannot start, construction fails
synchronously by raising a `RuntimeError` (the code defines no
`CaptureInitError` class), and the sub-resources started earlier in
construction are NOT torn down before the raise: the GLib main loop and its
(daemon) thread are left running and the pipeline is not set to NULL. -/
theorem init_failure_raises_without_teardown :
    ∀ busErr : Option String,
      (screenScannerInit StateChangeReturn.failure busErr).raised.isSome = true ∧
        (∃ msg : String, (screenScannerInit StateChangeReturn.failure busErr).raised
            = some (PyExn.runtimeError msg)) ∧
        (screenScannerInit StateChangeReturn.failure busErr).effects.loopThreadStarted = true ∧
        (screenScannerInit StateChangeReturn.failure busErr).effects.loopQuitCalled = false ∧
        (screenScannerInit StateChangeReturn.failure busErr).effects.pipelineSetNull = false := by
  intro busErr
  cases busErr <;> exact ⟨rfl, ⟨_, rfl⟩, rfl, rfl, rfl⟩

/-- C4 counterexample: the second of two `close()` calls issues a non-empty
trace of backend operations — it re-invokes `set_state(NULL)` and
`loop.quit()` on the already-released backend (there is no already-closed
guard), contradicting the claim that it does not operate on it. -/
theorem close_twice_reinvokes_backend_counterexample :
    (screenScannerClose (screenScannerClose ()).1).2
        = [GstCall.setStateNull, GstCall.loopQuit] ∧
      (screenScannerClose (screenScannerClose ()).1).2 ≠ [] :=
  ⟨rfl, by decide⟩

/-- C4 amended: calling `close()` twice does not raise (the body has no raise
path; both backend calls are safe on a stopped pipeline/loop), and the second
call repeats exactly the same two backend operations as the first —
`set_state(NULL)` then `loop.quit()` — rather than skipping them. -/
theorem close_twice_idempotent_trace :
    (screenScannerClose (screenScannerClose ()).1).2 = (screenScannerClose ()).2 ∧
      (screenScannerClose ()).2 = [GstCall.setStateNull, GstCall.loopQuit] :=
  ⟨rfl, rfl⟩

/-- C8: under the interleaving semantics in which each `_on_new_sample`
callback replaces the `latest_frame` reference in one atomic step (CPython
attribute assignment), every state reachable from a fresh sampler keeps the
construction-time dimensions, and any frame a concurrent query can observe in
the slot is a whole reshaped frame with exactly those dimensions — never a
torn or partial one. -/
theorem query_never_observes_torn_frame (height width : ℕ) (s : SamplerState)
    (hreach : Relation.ReflTransGen SamplerStep (samplerInit width height) s) :
    s.height = height ∧ s.width = width ∧
      ∀ f : Frame, s.latest_frame = some f → f.height = height ∧ f.width = width := by
  induction hreach with
  | refl => exact ⟨rfl, rfl, fun f h => by cases h⟩
  | tail hab hstep ih =>
      obtain ⟨ih1, ih2, ih3⟩ := ih
      cases hstep with
      | newSample bs =>
          simp only [on_new_sample]
          split_ifs with hlen
          · refine ⟨ih1, ih2, fun f hf => ?_⟩
            have hf2 := Option.some.inj hf
            subst hf2
            exact ⟨ih1, ih2⟩
          · exact ⟨ih1, ih2, ih3⟩

/-- Witness for C8: one delivered sample on a 2×2 sampler is reachable, and
the conclusion holds there. -/
theorem query_never_observes_torn_frame_witness :
    Relation.ReflTransGen SamplerStep (samplerInit 2 2)
        (on_new_sample (samplerInit 2 2) (List.replicate 12 9)) ∧
      ((on_new_sample (samplerInit 2 2) (List.replicate 12 9)).height = 2 ∧
        (on_new_sample (samplerInit 2 2) (List.replicate 12 9)).width = 2 ∧
        ∀ f : Frame,
          (on_new_sample (samplerInit 2 2) (List.replicate 12 9)).latest_frame = some f →
            f.height = 2 ∧ f.width = 2) :=
  ⟨Relation.ReflTransGen.single (SamplerStep.newSample _ _),
    query_never_observes_torn_frame 2 2 _
      (Relation.ReflTransGen.single (SamplerStep.newSample _ _))⟩

end Hueru
